import Mathlib

/-!
# Verification of the credit-categorization and data-reconciliation engine

Shallow embedding of the core of the vinyl-collection manager:

* `parse_credit_string` — `src/barcode_scanner/db.py`, lines 175–194
  (the credit parser built on the regex `^(.+)\s*\(([^)]+)\)$`);
* `parse_credit_string_mig` — `src/migrate_to_relational_credits.py`,
  lines 44–57 (the migration script's copy, regex `^(.+?)\s*\((.+)\)$`);
* `getAllCredits` — `get_all_credits` in `src/discogs_lookup.py`, lines 36–127
  (role classification against the official credits index, comma-part
  fallback preferring the `Instruments` heading, `Other`/`General` default,
  per-bucket dedup and sort);
* `formatReleaseData` — `format_release_data` in `src/discogs_lookup.py`,
  lines 178–462 (edition-field reconciliation and credit-source fallback).

Python strings are modelled as `String`/`List Char`; Python `None` as
`Option.none`; the `ROLE_INDEX` table (loaded at process start from
`discogs_official_credits.json`, external data) is a parameter
`RoleIndex`.  Network fetches are out of scope: `formatReleaseData` takes
the already-fetched current release, and the fetched master / main release
as `Option`s (`none` models both "no such edition" and the `hasattr`
guards on the reference).  The `try/except` wrappers around the network
calls are not modelled; all functions below are total.
-/

namespace Vinyl

/-! ## Python string primitives on `List Char` -/

/-- Leading-whitespace removal, first half of Python's `str.strip()`. -/
def dropLeadWs (l : List Char) : List Char := l.dropWhile Char.isWhitespace

/-- Trailing-whitespace removal, second half of Python's `str.strip()`. -/
def dropTrailWs (l : List Char) : List Char :=
  (l.reverse.dropWhile Char.isWhitespace).reverse

/-- Python's `str.strip()` on a character list. -/
def pyStrip (l : List Char) : List Char := dropTrailWs (dropLeadWs l)

/-- Python's `str.strip()` on a `String`. -/
def pyStripS (s : String) : String := ⟨pyStrip s.data⟩

/-- Helper for `str.split(sep)`: first segment and remaining segments. -/
def splitFR (sep : Char) : List Char → List Char × List (List Char)
  | [] => ([], [])
  | c :: tl =>
    let r := splitFR sep tl
    if c = sep then ([], r.1 :: r.2) else (c :: r.1, r.2)

/-- Python's `str.split(sep)` for a one-character separator: splits at every
occurrence, keeping empty segments (`"".split(',') == ['']`). -/
def splitOnChar (sep : Char) (l : List Char) : List (List Char) :=
  (splitFR sep l).1 :: (splitFR sep l).2

/-- Python's `str.lower()` (ASCII case). -/
def lowerS (s : String) : String := ⟨s.data.map Char.toLower⟩

/-! ## Credit parser (`parse_credit_string`, `src/barcode_scanner/db.py:175`)

The Python function strips the input, then matches `^(.+)\s*\(([^)]+)\)$`.
A match exists iff the stripped string ends in `')'` and some `'('` before
it opens a group whose content is non-empty and `')'`-free, with a
non-empty `.+` part before it; backtracking makes the engine take the
rightmost such `'('` (so a trailing disambiguation number like
`"Joel Ross (3)"` stays in the name).  `.+` cannot cross a newline, but
`\s*` may absorb a whitespace run in front of the `'('`; hence the
admissibility condition on the name segment below. -/

/-- The `(.+)\s*` part of the regex can produce the name segment `A`
iff after greedily handing its whitespace suffix to `\s*` a non-empty,
newline-free `.+` match remains. -/
def nameSegOk (A : List Char) : Bool :=
  decide (dropTrailWs A ≠ [] ∧ '\n' ∉ dropTrailWs A)

/-- Backtracking search for the group opener, scanning the reversed body
(everything before the final `')'`) from the right.  `content` accumulates
the characters already passed, i.e. those to the right of the cursor.
A `')'` aborts (the `[^)]+` group cannot contain one); a `'('` succeeds
when the group content is non-empty and the name segment is admissible,
and is otherwise passed into the content (it matches `[^)]`). -/
def findMatchGo : List Char → List Char → Option (List Char × List Char)
  | [], _ => none
  | c :: rest, content =>
    if c = ')' then none
    else if c = '(' then
      (if content ≠ [] ∧ nameSegOk rest.reverse = true then some (rest.reverse, content)
       else findMatchGo rest ('(' :: content))
    else findMatchGo rest (c :: content)

/-- Splits `body` as `name-segment ++ '(' ++ group-content` the way the
backtracking regex engine does, or `none` when `^(.+)\s*\(([^)]+)\)$`
cannot match `body ++ ")"`. -/
def findMatch (body : List Char) : Option (List Char × List Char) :=
  findMatchGo body.reverse []

/-- Full-string match of `^(.+)\s*\(([^)]+)\)$` against `t`. -/
def dbMatch (t : List Char) : Option (List Char × List Char) :=
  if t.getLast? = some ')' then findMatch t.dropLast else none

/-- `parse_credit_string` from `src/barcode_scanner/db.py` (lines 175–194):
name is everything before the last viable `'('`, stripped; roles are the
group content, stripped, split on `','`, each part stripped.  On no match
the whole stripped string is the name and the role list is empty. -/
def parse_credit_string (s : String) : String × List String :=
  match dbMatch (pyStrip s.data) with
  | some (a, content) =>
    (⟨pyStrip a⟩, (splitOnChar ',' (pyStrip content)).map (fun r => ⟨pyStrip r⟩))
  | none => (⟨pyStrip s.data⟩, [])

/-- Opener search for the migration script's lazy regex `^(.+?)\s*\((.+)\)$`:
scan the body left to right (`arev` is the reversed name segment so far);
the first `'('` with an admissible name segment and a non-empty,
newline-free group content wins, and the group content is everything up to
the final `')'`. -/
def migMatchGo : List Char → List Char → Option (List Char × List Char)
  | _, [] => none
  | arev, '(' :: tl =>
    if nameSegOk arev.reverse = true ∧ tl ≠ [] ∧ '\n' ∉ tl then some (arev.reverse, tl)
    else migMatchGo ('(' :: arev) tl
  | arev, c :: tl => migMatchGo (c :: arev) tl

/-- `parse_credit_string` from `src/migrate_to_relational_credits.py`
(lines 44–57).  Its regex matches lazily, so the name stops at the *first*
parenthesis that admits a match, not the last. -/
def parse_credit_string_mig (s : String) : String × List String :=
  match (if (pyStrip s.data).getLast? = some ')' then migMatchGo [] (pyStrip s.data).dropLast
         else none) with
  | some (a, content) =>
    (⟨pyStrip a⟩, (splitOnChar ',' (pyStrip content)).map (fun r => ⟨pyStrip r⟩))
  | none => (⟨pyStrip s.data⟩, [])

/-! ## Role classification and credit aggregation
(`get_all_credits`, `src/discogs_lookup.py:36-127`) -/

/-- One raw "extra artist" credit record from the metadata provider. -/
structure Credit where
  name : String
  role : String
deriving DecidableEq

/-- The official Discogs credits index `ROLE_INDEX`, keyed by lowercased
role string, giving `(heading, subheading)`.  It is loaded from
`discogs_official_credits.json` at process start (external read-only
data), so it is a parameter here. -/
abbrev RoleIndex := String → Option (String × String)

/-- Scanner for `re.sub(r'\s*\[.*?\]', '', role)`: the flag records whether
the cursor is inside a bracketed group being deleted.  `acc` is the output
so far, reversed.  A `'['` opens a deletion (consuming the whitespace run
just emitted, i.e. the `\s*`) only when a closing `']'` exists ahead;
the lazy `.*?` stops at the first `']'`. -/
def sbGo : Bool → List Char → List Char → List Char
  | _, acc, [] => acc.reverse
  | true, acc, c :: tl => if c = ']' then sbGo false acc tl else sbGo true acc tl
  | false, acc, c :: tl =>
    if c = '[' ∧ ']' ∈ tl then sbGo true (acc.dropWhile Char.isWhitespace) tl
    else sbGo false (c :: acc) tl

/-- `role_for_lookup`: strip bracketed qualifiers, then `strip()`
(line 59 of `src/discogs_lookup.py`). -/
def roleForLookup (role : String) : String := ⟨pyStrip (sbGo false [] role.data)⟩

/-- The comma-part fallback loop (lines 87–101): first match wins, but a
part whose heading is `"Instruments"` overrides and breaks. -/
def matchPartsGo (ri : RoleIndex) (acc : Option (String × String)) :
    List String → Option (String × String)
  | [] => acc
  | p :: ps =>
    match ri (lowerS p) with
    | some info =>
      if info.1 = "Instruments" then some info
      else
        match acc with
        | none => matchPartsGo ri (some info) ps
        | some _ => matchPartsGo ri acc ps
    | none => matchPartsGo ri acc ps

/-- Role classification: bracket-stripped, lowercased full-string lookup
first; otherwise the comma-part fallback; `none` means unclassified
(lines 59–101). -/
def classifyRole (ri : RoleIndex) (role : String) : Option (String × String) :=
  match ri (lowerS (roleForLookup role)) with
  | some info => some info
  | none =>
    matchPartsGo ri none
      ((splitOnChar ',' (roleForLookup role).data).map (fun p => ⟨pyStrip p⟩))

/-- The `(heading, subheading)` a credit is filed under: its role's
classification, or `("Other", "General")` (lines 113–120). -/
def creditCategory (ri : RoleIndex) (c : Credit) : String × String :=
  (classifyRole ri c.role).getD ("Other", "General")

/-- `f"{credit.name} ({credit.role})"` (line 56). -/
def formatCredit (c : Credit) : String := c.name ++ " (" ++ c.role ++ ")"

/-- Subheading → bucket map (a Python dict, insertion-ordered). -/
abbrev SubMap := List (String × List String)

/-- Heading → subheading map, the `categorized` structure. -/
abbrev CatMap := List (String × SubMap)

/-- Association-list lookup on string keys. -/
def alookup {β : Type} (k : String) : List (String × β) → Option β
  | [] => none
  | (k', v) :: m => if k' = k then some v else alookup k m

/-- Python-dict update: replace in place if the key exists, else append
(dicts preserve insertion order). -/
def aupdate {β : Type} (k : String) (f : Option β → β) :
    List (String × β) → List (String × β)
  | [] => [(k, f none)]
  | (k', v) :: m => if k' = k then (k', f (some v)) :: m else (k', v) :: aupdate k f m

/-- `set.add`: buckets are Python sets during accumulation, so adding keeps
one copy of each string (order is irrelevant — the final pass sorts). -/
def insertUniq (s : String) (b : List String) : List String :=
  if s ∈ b then b else b ++ [s]

/-- One loop iteration of `get_all_credits` (lines 54–120): file the
formatted credit under its category. -/
def addCredit (ri : RoleIndex) (cat : CatMap) (c : Credit) : CatMap :=
  aupdate (creditCategory ri c).1
    (fun sub => aupdate (creditCategory ri c).2
      (fun b => insertUniq (formatCredit c) (b.getD [])) (sub.getD []))
    cat

/-- Code-point lexicographic `≤` on character lists: Python's string
comparison, which `sorted()` uses. -/
def lexLe : List Char → List Char → Bool
  | [], _ => true
  | _ :: _, [] => false
  | x :: xs, y :: ys =>
    if x.toNat < y.toNat then true
    else if y.toNat < x.toNat then false
    else lexLe xs ys

/-- Python's `s1 <= s2` on strings. -/
def strLe (s t : String) : Prop := lexLe s.data t.data = true

instance : DecidablePred fun p : String × String => strLe p.1 p.2 :=
  fun _ => instDecidableEqBool _ _

instance (s t : String) : Decidable (strLe s t) := instDecidableEqBool _ _

/-- Insert into a `lexLe`-sorted list. -/
def insertSorted (s : String) : List String → List String
  | [] => [s]
  | t :: ts => if lexLe s.data t.data then s :: t :: ts else t :: insertSorted s ts

/-- `sorted(...)` on a list of strings (insertion sort; on the
duplicate-free buckets produced here it returns exactly Python's
`sorted(list(set))`). -/
def sortStrings (l : List String) : List String := l.foldr insertSorted []

/-- `get_all_credits` (lines 36–127): fold every credit into the nested
structure, then convert each set to a sorted list. -/
def getAllCredits (ri : RoleIndex) (credits : List Credit) : CatMap :=
  (credits.foldl (addCredit ri) []).map
    (fun p => (p.1, p.2.map (fun q => (q.1, sortStrings q.2))))

/-- Entries filed under `(h, sh)`: empty when the pair is absent. -/
def bucketOf (cat : CatMap) (h sh : String) : List String :=
  match alookup h cat with
  | some sub => (alookup sh sub).getD []
  | none => []

/-! ## Release editions and `format_release_data`
(`src/discogs_lookup.py:178-462`)

`hasattr` guards are modelled by `Option` for scalar fields and by the
empty list for list-valued fields (an absent attribute and an empty list
take the same code path everywhere below: `extend([])` is a no-op and the
genre/style fallbacks test truthiness). -/

/-- One entry of `release.labels`. -/
structure LabelInfo where
  name : String
  catno : String
deriving DecidableEq

/-- One entry of `release.identifiers`; the dict `.get` calls yield `None`
for missing keys. -/
structure Identifier where
  itype : Option String
  value : Option String
  description : Option String
deriving DecidableEq

/-- One entry of `release.formats` (`fmt.get('name', '')`, falsy-checked
`descriptions` and `text`). -/
structure FormatInfo where
  name : String
  descriptions : List String
  text : String
deriving DecidableEq

/-- One tracklist entry; `track.credits` is read only under
`hasattr(track, 'credits') and track.credits`, so a missing attribute and
an empty list coincide. -/
structure Track where
  position : String
  title : String
  duration : String
  credits : List Credit
deriving DecidableEq

/-- A fetched release object (the current release, and equally the
main/original release fetched through the master). -/
structure ReleaseData where
  id : Nat
  title : String
  artists : List String
  year : Option Nat
  country : Option String
  labels : List LabelInfo
  formats : List FormatInfo
  identifiers : List Identifier
  credits : List Credit
  tracklist : List Track
  genres : List String
  styles : List String
  released : Option String
deriving DecidableEq

/-- A fetched master object.  `mainRelease = some mr` models
`hasattr(master, 'main_release')` together with the successful
`d.release(master.main_release.id)` fetch. -/
structure MasterData where
  id : Nat
  tracklist : List Track
  genres : List String
  styles : List String
  mainRelease : Option ReleaseData
deriving DecidableEq

/-- Track credits collected in tracklist order (lines 337–344: per-track
`extend` under the truthiness guard). -/
def trackCreditsAll : List Track → List Credit
  | [] => []
  | t :: ts => t.credits ++ trackCreditsAll ts

/-- A release's full credit set: release-level credits followed by every
track's credits (lines 329–344 and 386–399). -/
def collectCredits (r : ReleaseData) : List Credit :=
  r.credits ++ trackCreditsAll r.tracklist

/-- One format's display string (lines 197–203):
`', '.join(filter(None, [name] + descriptions + [text]))`. -/
def formatPartString (f : FormatInfo) : String :=
  String.intercalate ", "
    (([f.name] ++ f.descriptions ++ (if f.text = "" then [] else [f.text])).filter
      (fun p => p ≠ ""))

/-- `current_release_format` (lines 194–205):
`' ('.join(format_parts) + ')' * (len(format_parts) - 1)`, `None` when the
release has no formats. -/
def currentFormatString (formats : List FormatInfo) : Option String :=
  match formats with
  | [] => none
  | fs => some (String.intercalate " (" (fs.map formatPartString) ++
      ⟨List.replicate ((fs.map formatPartString).length - 1) ')'⟩)

/-- The tracklist dicts built from the master (lines 254–263). -/
structure TrackInfo where
  position : String
  title : String
  duration : String
deriving DecidableEq

/-- The dict returned by `format_release_data` (lines 420–448). -/
structure FormattedData where
  artist : String
  album : String
  year : Option Nat
  label : Option String
  genres : List String
  styles : List String
  country : Option String
  masterId : Option Nat
  masterUrl : Option String
  tracklist : List TrackInfo
  originalReleaseId : Nat
  originalReleaseUrl : String
  originalCatno : Option String
  originalReleaseDate : Option String
  originalIdentifiers : List Identifier
  musicians : CatMap
  currentReleaseId : Nat
  currentReleaseUrl : String
  currentReleaseYear : Option String
  currentReleaseDate : Option String
  currentReleaseFormat : Option String
  currentLabel : Option String
  currentCatno : Option String
  currentCountry : Option String
  currentIdentifiers : List Identifier
  barcode : Option String
  addedFrom : Option String
deriving DecidableEq

/-- `format_release_data` (lines 178–462).  `masterOpt = some m` models a
successfully fetched master; the main-release branch is taken exactly when
`master and hasattr(master, 'main_release')` holds, i.e. when
`masterOpt.bind MasterData.mainRelease` is `some`.  The `try/except`
blocks only guard network fetches, which are outside this embedding. -/
def formatReleaseData (ri : RoleIndex) (release : ReleaseData)
    (masterOpt : Option MasterData) (addedFrom : Option String) : FormattedData :=
  let artistName :=
    match release.artists with
    | [] => "Unknown Artist"
    | _ => String.intercalate " & " release.artists
  let currentLabel := release.labels.head?.map LabelInfo.name
  let currentCatno := release.labels.head?.map LabelInfo.catno
  let currentIdentifiers := release.identifiers.map
    (fun i => { itype := i.itype, value := i.value, description := i.description })
  let masterGenres := match masterOpt with | some m => m.genres | none => []
  let masterStyles := match masterOpt with | some m => m.styles | none => []
  let masterTracks :=
    match masterOpt with
    | some m => m.tracklist.map
        (fun t => { position := t.position, title := t.title, duration := t.duration : TrackInfo })
    | none => []
  let common : FormattedData :=
    { artist := artistName
      album := release.title
      year := release.year
      label := currentLabel
      genres := if masterGenres = [] then release.genres else masterGenres
      styles := if masterStyles = [] then release.styles else masterStyles
      country := release.country
      masterId := masterOpt.map MasterData.id
      masterUrl := masterOpt.map
        (fun m => "https://www.discogs.com/master/" ++ toString m.id)
      tracklist := masterTracks
      originalReleaseId := release.id
      originalReleaseUrl := "https://www.discogs.com/release/" ++ toString release.id
      originalCatno := currentCatno
      originalReleaseDate := none
      originalIdentifiers := currentIdentifiers
      musicians :=
        if collectCredits release = [] then [] else getAllCredits ri (collectCredits release)
      currentReleaseId := release.id
      currentReleaseUrl := "https://www.discogs.com/release/" ++ toString release.id
      currentReleaseYear :=
        match release.year with
        | some y => if y = 0 then none else some (toString y)
        | none => none
      currentReleaseDate := release.released
      currentReleaseFormat := currentFormatString release.formats
      currentLabel := currentLabel
      currentCatno := currentCatno
      currentCountry := release.country
      currentIdentifiers := currentIdentifiers
      barcode := none
      addedFrom := addedFrom }
  match masterOpt.bind MasterData.mainRelease with
  | some mr =>
    let allCredits :=
      if collectCredits mr = [] then collectCredits release else collectCredits mr
    let genres1 := if masterGenres = [] then mr.genres else masterGenres
    let styles1 := if masterStyles = [] then mr.styles else masterStyles
    { common with
      year := mr.year
      label := mr.labels.head?.map LabelInfo.name
      genres := if genres1 = [] then release.genres else genres1
      styles := if styles1 = [] then release.styles else styles1
      country := mr.country
      originalReleaseId := mr.id
      originalReleaseUrl := "https://www.discogs.com/release/" ++ toString mr.id
      originalCatno := mr.labels.head?.map LabelInfo.catno
      originalReleaseDate := mr.released
      originalIdentifiers := mr.identifiers.map
        (fun i => { itype := i.itype, value := i.value, description := i.description })
      musicians := if allCredits = [] then [] else getAllCredits ri allCredits }
  | none => common

/-! ## Concrete scenarios used by witnesses and counterexamples -/

/-- The empty role index (every lookup misses). -/
def riNone : RoleIndex := fun _ => none

/-- The role index of the end-to-end scenario in §8 of the spec. -/
def riMakaya : RoleIndex := fun k =>
  if k = "drums" then some ("Instruments", "Percussion")
  else if k = "producer" then some ("Credits", "Production")
  else if k = "mixed by" then some ("Credits", "Production")
  else none

/-- The single credit of the end-to-end scenario. -/
def creditMakaya : Credit := ⟨"Makaya McCraven", "Drums, Producer, Mixed By"⟩

/-- A release with every provider field absent/empty. -/
def emptyRelease : ReleaseData :=
  { id := 0, title := "", artists := [], year := none, country := none, labels := [],
    formats := [], identifiers := [], credits := [], tracklist := [], genres := [],
    styles := [], released := none }

/-- Current release for the reconciler scenarios: year 1975, genre Pop,
its own credits. -/
def relCur : ReleaseData :=
  { emptyRelease with
    id := 7
    year := some 1975
    genres := ["Pop"]
    country := some "UK"
    labels := [⟨"CurLabel", "CUR-1"⟩]
    credits := [⟨"Bob", "Bass"⟩] }

/-- Main/original release for the scenarios: no year, genre Jazz, one
release-level credit. -/
def relMain : ReleaseData :=
  { emptyRelease with
    id := 3
    genres := ["Jazz"]
    credits := [⟨"Ann", "Piano"⟩] }

/-- A master whose main release is `relMain` and whose own genre list is
empty. -/
def masterWithMain : MasterData :=
  { id := 9, tracklist := [], genres := [], styles := [], mainRelease := some relMain }

/-! ## Properties of the string primitives -/

theorem length_dropLeadWs_le (l : List Char) : (dropLeadWs l).length ≤ l.length :=
  (List.dropWhile_sublist _).length_le

theorem length_dropTrailWs_le (l : List Char) : (dropTrailWs l).length ≤ l.length := by
  have h := (List.dropWhile_sublist (l := l.reverse) Char.isWhitespace).length_le
  simpa [dropTrailWs] using h

theorem dropLeadWs_cons_of_false (c : Char) (l : List Char) (hc : c.isWhitespace = false) :
    dropLeadWs (c :: l) = c :: l := by
  simp [dropLeadWs, List.dropWhile_cons, hc]

theorem dropLeadWs_eq_self (l : List Char)
    (h : (dropLeadWs l).length = l.length) : dropLeadWs l = l := by
  cases l with
  | nil => rfl
  | cons c r =>
    cases hc : c.isWhitespace with
    | false => exact dropLeadWs_cons_of_false c r hc
    | true =>
      exfalso
      have h1 : dropLeadWs (c :: r) = dropLeadWs r := by
        simp [dropLeadWs, List.dropWhile_cons, hc]
      have h2 := length_dropLeadWs_le r
      rw [h1] at h
      simp only [List.length_cons] at h
      omega

theorem head_not_ws_of_dropLeadWs_eq (c : Char) (l : List Char)
    (h : dropLeadWs (c :: l) = c :: l) : c.isWhitespace = false := by
  cases hc : c.isWhitespace with
  | false => rfl
  | true =>
    exfalso
    have h1 : dropLeadWs (c :: l) = dropLeadWs l := by
      simp [dropLeadWs, List.dropWhile_cons, hc]
    have h2 := length_dropLeadWs_le l
    rw [h1] at h
    have h3 := congrArg List.length h
    simp only [List.length_cons] at h3
    omega

theorem dropTrailWs_eq_self_iff (l : List Char) :
    dropTrailWs l = l ↔ dropLeadWs l.reverse = l.reverse := by
  constructor
  · intro h
    have h2 := congrArg List.reverse h
    unfold dropTrailWs at h2
    rw [List.reverse_reverse] at h2
    exact h2
  · intro h
    unfold dropTrailWs
    unfold dropLeadWs at h
    rw [h, List.reverse_reverse]

theorem pyStrip_eq_self_split (l : List Char) (h : pyStrip l = l) :
    dropLeadWs l = l ∧ dropTrailWs l = l := by
  have hlen := congrArg List.length h
  have a1 := length_dropTrailWs_le (dropLeadWs l)
  have a2 := length_dropLeadWs_le l
  simp only [pyStrip] at hlen
  have h2 : dropLeadWs l = l := dropLeadWs_eq_self l (by omega)
  refine ⟨h2, ?_⟩
  have h3 : pyStrip l = dropTrailWs l := by rw [pyStrip, h2]
  rw [← h3, h]

theorem dropTrailWs_concat_ws (l : List Char) (c : Char) (hc : c.isWhitespace = true) :
    dropTrailWs (l ++ [c]) = dropTrailWs l := by
  simp [dropTrailWs, List.reverse_append, List.dropWhile_cons, hc]

theorem dropTrailWs_append (l m : List Char) (hm : dropTrailWs m = m) (hne : m ≠ []) :
    dropTrailWs (l ++ m) = l ++ m := by
  have hrev : dropLeadWs m.reverse = m.reverse := (dropTrailWs_eq_self_iff m).mp hm
  obtain ⟨c, r, hcr⟩ : ∃ c r, m.reverse = c :: r := by
    cases hx : m.reverse with
    | nil => exact absurd (by simpa using congrArg List.reverse hx) hne
    | cons c r => exact ⟨c, r, rfl⟩
  have hc : c.isWhitespace = false := by
    apply head_not_ws_of_dropLeadWs_eq c r
    rw [← hcr]
    exact hrev
  rw [dropTrailWs_eq_self_iff, List.reverse_append, hcr, List.cons_append]
  exact dropLeadWs_cons_of_false _ _ hc

theorem splitFR_no_sep (sep : Char) (m : List Char) (h : sep ∉ m) :
    splitFR sep m = (m, []) := by
  induction m with
  | nil => rfl
  | cons c tl ih =>
    have hc : ¬c = sep := fun e => h (e ▸ List.mem_cons_self c tl)
    have htl : sep ∉ tl := fun e => h (List.mem_cons_of_mem c e)
    simp [splitFR, ih htl, hc]

theorem splitOnChar_no_sep (sep : Char) (m : List Char) (h : sep ∉ m) :
    splitOnChar sep m = [m] := by
  simp [splitOnChar, splitFR_no_sep sep m h]

theorem splitFR_append_sep (sep : Char) (l m : List Char) (h : sep ∉ l) :
    splitFR sep (l ++ sep :: m) = (l, (splitFR sep m).1 :: (splitFR sep m).2) := by
  induction l with
  | nil => simp [splitFR]
  | cons c tl ih =>
    have hc : ¬c = sep := fun e => h (e ▸ List.mem_cons_self c tl)
    have htl : sep ∉ tl := fun e => h (List.mem_cons_of_mem c e)
    simp [splitFR, ih htl, hc]

theorem splitOnChar_append_sep (sep : Char) (l m : List Char) (h : sep ∉ l) :
    splitOnChar sep (l ++ sep :: m) = l :: splitOnChar sep m := by
  simp [splitOnChar, splitFR_append_sep sep l m h]

/-! ## Properties of the credit-parser regex model -/

theorem findMatchGo_scan (D rest content : List Char)
    (hD : ∀ c ∈ D, c ≠ '(' ∧ c ≠ ')') :
    findMatchGo (D ++ rest) content = findMatchGo rest (D.reverse ++ content) := by
  induction D generalizing content with
  | nil => simp
  | cons c D ih =>
    have hc := hD c (List.mem_cons_self c D)
    rw [List.cons_append]
    show (if c = ')' then none
      else if c = '(' then
        (if content ≠ [] ∧ nameSegOk (D ++ rest).reverse = true
         then some ((D ++ rest).reverse, content)
         else findMatchGo (D ++ rest) ('(' :: content))
      else findMatchGo (D ++ rest) (c :: content)) = _
    rw [if_neg hc.2, if_neg hc.1]
    rw [ih (c :: content) (fun x hx => hD x (List.mem_cons_of_mem c hx))]
    simp

theorem findMatchGo_open (rest content : List Char) (h1 : content ≠ [])
    (h2 : nameSegOk rest.reverse = true) :
    findMatchGo ('(' :: rest) content = some (rest.reverse, content) := by
  show (if '(' = ')' then none
    else if '(' = '(' then
      (if content ≠ [] ∧ nameSegOk rest.reverse = true
       then some (rest.reverse, content)
       else findMatchGo rest ('(' :: content))
    else findMatchGo rest ('(' :: content)) = _
  rw [if_neg (by decide), if_pos rfl, if_pos ⟨h1, h2⟩]

theorem findMatchGo_sound (l : List Char) :
    ∀ content a c, findMatchGo l content = some (a, c) →
      l.reverse ++ content = a ++ '(' :: c := by
  induction l with
  | nil => intro content a c h; simp [findMatchGo] at h
  | cons x rest ih =>
    intro content a c h
    by_cases hx : x = ')'
    · rw [show findMatchGo (x :: rest) content = if x = ')' then none
          else if x = '(' then
            (if content ≠ [] ∧ nameSegOk rest.reverse = true
             then some (rest.reverse, content)
             else findMatchGo rest ('(' :: content))
          else findMatchGo rest (x :: content) from rfl, if_pos hx] at h
      exact absurd h (by simp)
    · by_cases hx2 : x = '('
      · subst hx2
        rw [show findMatchGo ('(' :: rest) content = if ('(' : Char) = ')' then none
            else if ('(' : Char) = '(' then
              (if content ≠ [] ∧ nameSegOk rest.reverse = true
               then some (rest.reverse, content)
               else findMatchGo rest ('(' :: content))
            else findMatchGo rest ('(' :: content) from rfl,
          if_neg (by decide), if_pos rfl] at h
        by_cases hcond : content ≠ [] ∧ nameSegOk rest.reverse = true
        · rw [if_pos hcond] at h
          obtain ⟨ha, hc⟩ : rest.reverse = a ∧ content = c := by
            have := Option.some.inj h
            exact ⟨congrArg Prod.fst this, congrArg Prod.snd this⟩
          subst ha; subst hc
          simp
        · rw [if_neg hcond] at h
          have := ih ('(' :: content) a c h
          rw [← this]
          simp
      · rw [show findMatchGo (x :: rest) content = if x = ')' then none
            else if x = '(' then
              (if content ≠ [] ∧ nameSegOk rest.reverse = true
               then some (rest.reverse, content)
               else findMatchGo rest ('(' :: content))
            else findMatchGo rest (x :: content) from rfl,
          if_neg hx, if_neg hx2] at h
        have := ih (x :: content) a c h
        rw [← this]
        simp

/-- Shared shape theorem for the db.py parser: on a string of the form
`name ++ " (" ++ roles ++ ")"`, where `name` is stripped, non-empty and
newline-free and `roles` is non-empty and parenthesis-free, the regex
matches the final group and the parser returns the name together with the
stripped comma-split of `roles`. -/
theorem parse_shape (name roles : String)
    (h1 : pyStrip name.data = name.data) (h2 : name.data ≠ [])
    (h3 : '\n' ∉ name.data) (h4 : roles.data ≠ [])
    (h5 : '(' ∉ roles.data) (h6 : ')' ∉ roles.data) :
    parse_credit_string (name ++ " (" ++ roles ++ ")") =
      (name, (splitOnChar ',' (pyStrip roles.data)).map (fun r => ⟨pyStrip r⟩)) := by
  obtain ⟨hL, hT⟩ := pyStrip_eq_self_split name.data h1
  obtain ⟨c0, nr, hname⟩ : ∃ c0 nr, name.data = c0 :: nr := by
    cases hnd : name.data with
    | nil => exact absurd hnd h2
    | cons a b => exact ⟨a, b, rfl⟩
  have hc0 : c0.isWhitespace = false := by
    apply head_not_ws_of_dropLeadWs_eq
    rw [← hname]
    exact hL
  have hdata : (name ++ " (" ++ roles ++ ")").data
      = name.data ++ ' ' :: '(' :: (roles.data ++ [')']) := by
    have e1 : (" (" : String).data = [' ', '('] := rfl
    have e2 : (")" : String).data = [')'] := rfl
    simp [String.data_append, e1, e2]
  have hshape : name.data ++ ' ' :: '(' :: (roles.data ++ [')'])
      = (name.data ++ ' ' :: '(' :: roles.data) ++ [')'] := by simp
  have hstrip : pyStrip (name.data ++ ' ' :: '(' :: (roles.data ++ [')'])) =
      name.data ++ ' ' :: '(' :: (roles.data ++ [')']) := by
    have e1 : dropLeadWs (name.data ++ ' ' :: '(' :: (roles.data ++ [')'])) =
        name.data ++ ' ' :: '(' :: (roles.data ++ [')']) := by
      rw [hname, List.cons_append]
      exact dropLeadWs_cons_of_false _ _ hc0
    rw [pyStrip, e1, hshape]
    rw [dropTrailWs_append _ [')'] (by decide) (by simp)]
  have hlast : (name.data ++ ' ' :: '(' :: (roles.data ++ [')'])).getLast? = some ')' := by
    rw [hshape]
    exact List.getLast?_concat _
  have hdrop : (name.data ++ ' ' :: '(' :: (roles.data ++ [')'])).dropLast =
      name.data ++ ' ' :: '(' :: roles.data := by
    rw [hshape]
    exact List.dropLast_concat
  have hnsok : nameSegOk ((' ' :: name.data.reverse).reverse) = true := by
    have e : (' ' :: name.data.reverse).reverse = name.data ++ [' '] := by simp
    rw [e, nameSegOk]
    rw [dropTrailWs_concat_ws _ _ (by decide), hT]
    exact decide_eq_true ⟨h2, h3⟩
  have hfind : findMatch (name.data ++ ' ' :: '(' :: roles.data) =
      some (name.data ++ [' '], roles.data) := by
    rw [findMatch]
    have e1 : (name.data ++ ' ' :: '(' :: roles.data).reverse =
        roles.data.reverse ++ ('(' :: ' ' :: name.data.reverse) := by simp
    rw [e1]
    rw [findMatchGo_scan _ _ _ (fun c hc => by
      rw [List.mem_reverse] at hc
      exact ⟨fun e => h5 (e ▸ hc), fun e => h6 (e ▸ hc)⟩)]
    rw [List.reverse_reverse, List.append_nil]
    rw [findMatchGo_open _ _ h4 hnsok]
    simp
  have hmatch : dbMatch (pyStrip ((name ++ " (" ++ roles ++ ")").data)) =
      some (name.data ++ [' '], roles.data) := by
    rw [hdata, hstrip, dbMatch, if_pos hlast, hdrop, hfind]
  have hnm : pyStrip (name.data ++ [' ']) = name.data := by
    rw [pyStrip]
    have e1 : dropLeadWs (name.data ++ [' ']) = name.data ++ [' '] := by
      rw [hname, List.cons_append]
      exact dropLeadWs_cons_of_false _ _ hc0
    rw [e1, dropTrailWs_concat_ws _ _ (by decide), hT]
  rw [parse_credit_string, hmatch]
  show ((⟨pyStrip (name.data ++ [' '])⟩ : String),
      (splitOnChar ',' (pyStrip roles.data)).map (fun r => (⟨pyStrip r⟩ : String))) =
    (name, (splitOnChar ',' (pyStrip roles.data)).map (fun r => (⟨pyStrip r⟩ : String)))
  rw [hnm]

/-- The stripped comma-split of `r1 ++ ", " ++ r2` recovers `[r1, r2]`
when both roles are stripped and comma-free. -/
theorem splitTrim_two (r1 r2 : String)
    (t1 : pyStrip r1.data = r1.data) (t2 : pyStrip r2.data = r2.data)
    (c1 : ',' ∉ r1.data) (c2 : ',' ∉ r2.data) :
    (splitOnChar ',' (pyStrip (r1.data ++ ',' :: ' ' :: r2.data))).map
      (fun r => (⟨pyStrip r⟩ : String)) = [r1, r2] := by
  obtain ⟨l1, tt1⟩ := pyStrip_eq_self_split r1.data t1
  obtain ⟨l2, tt2⟩ := pyStrip_eq_self_split r2.data t2
  have hlead : dropLeadWs (r1.data ++ ',' :: ' ' :: r2.data) =
      r1.data ++ ',' :: ' ' :: r2.data := by
    cases hr1 : r1.data with
    | nil => exact dropLeadWs_cons_of_false _ _ (by decide)
    | cons c0 nr =>
      rw [List.cons_append]
      refine dropLeadWs_cons_of_false _ _ ?_
      apply head_not_ws_of_dropLeadWs_eq c0 nr
      rw [← hr1]
      exact l1
  by_cases hr2 : r2.data = []
  · have htrail : pyStrip (r1.data ++ ',' :: ' ' :: r2.data) = r1.data ++ [','] := by
      rw [pyStrip, hlead, hr2]
      rw [show r1.data ++ [',', ' '] = (r1.data ++ [',']) ++ [' '] by simp]
      rw [dropTrailWs_concat_ws _ _ (by decide)]
      exact dropTrailWs_append _ [','] (by decide) (by simp)
    rw [htrail]
    rw [show r1.data ++ [','] = r1.data ++ ',' :: ([] : List Char) by rfl]
    rw [splitOnChar_append_sep _ _ _ c1]
    have hr2s : r2 = ⟨[]⟩ := by
      apply String.ext
      exact hr2
    rw [hr2s]
    simp only [List.map_cons, splitOnChar, splitFR, List.map_nil]
    rw [t1]
    rfl
  · have htrail : pyStrip (r1.data ++ ',' :: ' ' :: r2.data) =
        r1.data ++ ',' :: ' ' :: r2.data := by
      rw [pyStrip, hlead]
      rw [show r1.data ++ ',' :: ' ' :: r2.data = (r1.data ++ [',', ' ']) ++ r2.data by simp]
      rw [dropTrailWs_append _ r2.data tt2 hr2]
    rw [htrail]
    rw [show r1.data ++ ',' :: ' ' :: r2.data = r1.data ++ ',' :: (' ' :: r2.data) by rfl]
    rw [splitOnChar_append_sep _ _ _ c1]
    rw [splitOnChar_no_sep _ _ (by
      intro hmem
      rcases List.mem_cons.mp hmem with he | hm
      · exact absurd he (by decide)
      · exact c2 hm)]
    simp only [List.map_cons, List.map_nil]
    rw [t1]
    have hsp : pyStrip (' ' :: r2.data) = r2.data := by
      rw [pyStrip]
      rw [show dropLeadWs (' ' :: r2.data) = dropLeadWs r2.data by
        simp [dropLeadWs, List.dropWhile_cons]]
      rw [l2, tt2]
    rw [hsp]

/-! ## Claim C1 — parser takes the last parenthesized group -/

/-- C1: on a credit string of the shape `name ++ " (" ++ roles ++ ")"`
(stripped, non-empty, newline-free name; non-empty, parenthesis-free role
segment), the db.py `parse_credit_string` returns everything up to that
last group as the name, and the group content split on commas and
trimmed as the roles. -/
theorem c1_parse_last_group (name roles : String)
    (h1 : pyStrip name.data = name.data) (h2 : name.data ≠ [])
    (h3 : '\n' ∉ name.data) (h4 : roles.data ≠ [])
    (h5 : '(' ∉ roles.data) (h6 : ')' ∉ roles.data) :
    parse_credit_string (name ++ " (" ++ roles ++ ")") =
      (name, (splitOnChar ',' (pyStrip roles.data)).map (fun r => ⟨pyStrip r⟩)) :=
  parse_shape name roles h1 h2 h3 h4 h5 h6

/-- C1 witness: the disambiguation-preservation example, by applying
`c1_parse_last_group` at `name = "Joel Ross (3)"`,
`roles = "Performer, Vibraphone"`. -/
theorem c1_witness :
    parse_credit_string "Joel Ross (3) (Performer, Vibraphone)" =
      ("Joel Ross (3)", ["Performer", "Vibraphone"]) := by
  have e : ("Joel Ross (3)" : String) ++ " (" ++ "Performer, Vibraphone" ++ ")" =
      "Joel Ross (3) (Performer, Vibraphone)" := by decide
  have h := c1_parse_last_group "Joel Ross (3)" "Performer, Vibraphone"
    (by decide) (by decide) (by decide) (by decide) (by decide) (by decide)
  rw [e] at h
  exact h.trans (by decide)

/-- C1 counterexample: the claim names `parse_credit_string` of
`src/migrate_to_relational_credits.py` as well, and that copy matches
lazily, splitting at the *first* parenthesis: on the claim's own example
it returns `("Joel Ross", ["3) (Performer", "Vibraphone"])` instead of
`("Joel Ross (3)", ["Performer", "Vibraphone"])`. -/
theorem c1_counterexample :
    parse_credit_string_mig "Joel Ross (3) (Performer, Vibraphone)" =
      ("Joel Ross", ["3) (Performer", "Vibraphone"]) ∧
    parse_credit_string_mig "Joel Ross (3) (Performer, Vibraphone)" ≠
      ("Joel Ross (3)", ["Performer", "Vibraphone"]) := by
  constructor
  · decide
  · decide

/-! ## Claim C8 — parser round-trip -/

/-- C8: round-trip through the spec's `format`: parsing
`name ++ " (" ++ r1 ++ ", " ++ r2 ++ ")"` yields `(name, [r1, r2])`,
provided the name is paren-free, stripped, non-empty and newline-free and
the roles are paren- and comma-free and stripped. -/
theorem c8_round_trip (name r1 r2 : String)
    (h1 : pyStrip name.data = name.data) (h2 : name.data ≠ [])
    (h3 : '\n' ∉ name.data) (hn1 : '(' ∉ name.data) (hn2 : ')' ∉ name.data)
    (t1 : pyStrip r1.data = r1.data) (p1 : '(' ∉ r1.data) (q1 : ')' ∉ r1.data)
    (c1 : ',' ∉ r1.data)
    (t2 : pyStrip r2.data = r2.data) (p2 : '(' ∉ r2.data) (q2 : ')' ∉ r2.data)
    (c2 : ',' ∉ r2.data) :
    parse_credit_string (name ++ " (" ++ r1 ++ ", " ++ r2 ++ ")") = (name, [r1, r2]) := by
  have hd : (r1 ++ ", " ++ r2).data = r1.data ++ ',' :: ' ' :: r2.data := by
    have e : ((", ") : String).data = [',', ' '] := rfl
    simp [String.data_append, e]
  have hfull : name ++ " (" ++ r1 ++ ", " ++ r2 ++ ")" =
      name ++ " (" ++ (r1 ++ ", " ++ r2) ++ ")" := by
    apply String.ext
    simp [String.data_append]
  have h4 : (r1 ++ ", " ++ r2).data ≠ [] := by
    rw [hd]
    intro hx
    have := congrArg List.length hx
    simp at this
  have h5 : '(' ∉ (r1 ++ ", " ++ r2).data := by
    rw [hd]
    intro hmem
    rcases List.mem_append.mp hmem with hm | hm
    · exact p1 hm
    · rcases List.mem_cons.mp hm with he | hm
      · exact absurd he (by decide)
      · rcases List.mem_cons.mp hm with he | hm
        · exact absurd he (by decide)
        · exact p2 hm
  have h6 : ')' ∉ (r1 ++ ", " ++ r2).data := by
    rw [hd]
    intro hmem
    rcases List.mem_append.mp hmem with hm | hm
    · exact q1 hm
    · rcases List.mem_cons.mp hm with he | hm
      · exact absurd he (by decide)
      · rcases List.mem_cons.mp hm with he | hm
        · exact absurd he (by decide)
        · exact q2 hm
  have hmain := parse_shape name (r1 ++ ", " ++ r2) h1 h2 h3 h4 h5 h6
  rw [hfull, hmain, hd, splitTrim_two r1 r2 t1 t2 c1 c2]

/-- C8 witness: `c8_round_trip` at a concrete name and role pair. -/
theorem c8_witness :
    parse_credit_string "Makaya McCraven (Drums, Producer)" =
      ("Makaya McCraven", ["Drums", "Producer"]) := by
  have e : ("Makaya McCraven" : String) ++ " (" ++ "Drums" ++ ", " ++ "Producer" ++ ")" =
      "Makaya McCraven (Drums, Producer)" := by decide
  have h := c8_round_trip "Makaya McCraven" "Drums" "Producer"
    (by decide) (by decide) (by decide) (by decide) (by decide)
    (by decide) (by decide) (by decide) (by decide)
    (by decide) (by decide) (by decide) (by decide)
  rw [e] at h
  exact h

/-- C8 counterexample: the claim as stated quantifies over *every* name
without parentheses, but at `name = ""` the formatted string
`" (Performer, Vibraphone)"` strips to a string the regex cannot match
(the `.+` group would be empty), so the parser falls back and the
round-trip fails. -/
theorem c8_counterexample :
    parse_credit_string ("" ++ " (" ++ "Performer" ++ ", " ++ "Vibraphone" ++ ")") =
      ("(Performer, Vibraphone)", []) ∧
    parse_credit_string ("" ++ " (" ++ "Performer" ++ ", " ++ "Vibraphone" ++ ")") ≠
      ("", ["Performer", "Vibraphone"]) := by
  constructor
  · decide
  · decide

/-! ## Claim C9 — malformed input falls back to (whole string, []) -/

/-- A string extended by a parenthesized group ends in `')'`. -/
theorem endsParenGroup_getLast (A B : List Char) :
    (A ++ '(' :: (B ++ [')'])).getLast? = some ')' := by
  rw [show A ++ '(' :: (B ++ [')']) = (A ++ '(' :: B) ++ [')'] by simp]
  exact List.getLast?_concat _

/-- C9: on any credit string whose stripped form does not end in a
parenthesized group — it has no decomposition
`anything ++ "(" ++ anything ++ ")"` — `parse_credit_string` returns the
whole stripped string as the name with an empty role list (and, being a
total function, never raises). -/
theorem c9_malformed_fallback (s : String)
    (h : ∀ A B : List Char, pyStrip s.data ≠ A ++ '(' :: (B ++ [')'])) :
    parse_credit_string s = (⟨pyStrip s.data⟩, []) := by
  have hm : dbMatch (pyStrip s.data) = none := by
    cases hg : (pyStrip s.data).getLast? with
    | none => rw [dbMatch, if_neg (by simp [hg])]
    | some c =>
      by_cases hc : c = ')'
      · subst hc
        rw [dbMatch, if_pos hg]
        cases hf : findMatch (pyStrip s.data).dropLast with
        | none => rfl
        | some p =>
          exfalso
          obtain ⟨a, cont⟩ := p
          have hsound := findMatchGo_sound (pyStrip s.data).dropLast.reverse []
            a cont hf
          rw [List.reverse_reverse, List.append_nil] at hsound
          have hrec : pyStrip s.data = a ++ '(' :: (cont ++ [')']) := by
            have hback := List.dropLast_append_getLast? ')' hg
            rw [← hback, hsound]
            simp
          exact h a cont hrec
      · rw [dbMatch, if_neg (by rw [hg]; intro hx; exact hc (Option.some.inj hx))]
  rw [parse_credit_string, hm]

/-- C9 witness: `c9_malformed_fallback` on a padded plain name. -/
theorem c9_witness :
    parse_credit_string "  Makaya McCraven  " = ("Makaya McCraven", []) := by
  have h := c9_malformed_fallback "  Makaya McCraven  " (by
    intro A B hEq
    have h2 := endsParenGroup_getLast A B
    rw [← hEq] at h2
    exact absurd h2 (by decide))
  rw [h]
  decide

/-! ## Order and permutation facts for the aggregator's sorted buckets -/

theorem lexLe_total (a : List Char) : ∀ b, lexLe a b = true ∨ lexLe b a = true := by
  induction a with
  | nil => intro b; left; rfl
  | cons x xs ih =>
    intro b
    cases b with
    | nil => right; rfl
    | cons y ys =>
      rcases Nat.lt_trichotomy x.toNat y.toNat with h | h | h
      · left; rw [lexLe, if_pos h]
      · rcases ih ys with h2 | h2
        · left
          rw [lexLe, if_neg (by omega), if_neg (by omega)]
          exact h2
        · right
          rw [lexLe, if_neg (by omega), if_neg (by omega)]
          exact h2
      · right; rw [lexLe, if_pos h]

theorem lexLe_trans (a : List Char) :
    ∀ b c, lexLe a b = true → lexLe b c = true → lexLe a c = true := by
  induction a with
  | nil => intro b c _ _; rfl
  | cons x xs ih =>
    intro b c h1 h2
    cases b with
    | nil => rw [lexLe] at h1; exact absurd h1 (by simp)
    | cons y ys =>
      cases c with
      | nil => rw [lexLe] at h2; exact absurd h2 (by simp)
      | cons z zs =>
        rw [lexLe] at h1 h2 ⊢
        rcases Nat.lt_trichotomy x.toNat y.toNat with hxy | hxy | hxy
        · rcases Nat.lt_trichotomy y.toNat z.toNat with hyz | hyz | hyz
          · rw [if_pos (by omega)]
          · rw [if_pos (by omega)]
          · rw [if_neg (by omega), if_pos hyz] at h2
            exact absurd h2 (by simp)
        · rw [if_neg (by omega), if_neg (by omega)] at h1
          rcases Nat.lt_trichotomy y.toNat z.toNat with hyz | hyz | hyz
          · rw [if_pos (by omega)]
          · rw [if_neg (by omega), if_neg (by omega)] at h2 ⊢
            exact ih ys zs h1 h2
          · rw [if_neg (by omega), if_pos hyz] at h2
            exact absurd h2 (by simp)
        · rw [if_neg (by omega), if_pos hxy] at h1
          exact absurd h1 (by simp)

theorem insertSorted_perm (s : String) (l : List String) :
    (insertSorted s l).Perm (s :: l) := by
  induction l with
  | nil => exact List.Perm.refl _
  | cons t ts ih =>
    by_cases h : lexLe s.data t.data = true
    · rw [insertSorted, if_pos h]
    · rw [insertSorted, if_neg h]
      exact (ih.cons t).trans (List.Perm.swap s t ts)

theorem mem_insertSorted (a s : String) (l : List String) :
    a ∈ insertSorted s l ↔ a = s ∨ a ∈ l := by
  have h := (insertSorted_perm s l).mem_iff (a := a)
  simpa using h

theorem sorted_insertSorted (s : String) (l : List String) (h : l.Sorted strLe) :
    (insertSorted s l).Sorted strLe := by
  induction l with
  | nil => exact List.sorted_singleton s
  | cons t ts ih =>
    rw [List.sorted_cons] at h
    by_cases hc : lexLe s.data t.data = true
    · rw [insertSorted, if_pos hc, List.sorted_cons]
      refine ⟨?_, ?_⟩
      · intro b hb
        rcases List.mem_cons.mp hb with he | hb2
        · subst he; exact hc
        · exact lexLe_trans _ _ _ hc (h.1 b hb2)
      · rw [List.sorted_cons]
        exact h
    · rw [insertSorted, if_neg hc, List.sorted_cons]
      refine ⟨?_, ih h.2⟩
      intro b hb
      rcases (mem_insertSorted b s ts).mp hb with he | hb2
      · rw [he]
        rcases lexLe_total s.data t.data with h2 | h2
        · exact absurd h2 hc
        · exact h2
      · exact h.1 b hb2

theorem sortStrings_perm (l : List String) : (sortStrings l).Perm l := by
  induction l with
  | nil => exact List.Perm.refl _
  | cons x xs ih =>
    rw [show sortStrings (x :: xs) = insertSorted x (sortStrings xs) from rfl]
    exact (insertSorted_perm x (sortStrings xs)).trans (ih.cons x)

theorem sortStrings_sorted (l : List String) : (sortStrings l).Sorted strLe := by
  induction l with
  | nil => exact List.sorted_nil
  | cons x xs ih => exact sorted_insertSorted x (sortStrings xs) ih

theorem mem_sortStrings (a : String) (l : List String) : a ∈ sortStrings l ↔ a ∈ l :=
  (sortStrings_perm l).mem_iff

/-! ## Association-list and bucket lemmas -/

theorem alookup_aupdate_self {β : Type} (k : String) (f : Option β → β)
    (m : List (String × β)) : alookup k (aupdate k f m) = some (f (alookup k m)) := by
  induction m with
  | nil => simp [aupdate, alookup]
  | cons p m ih =>
    obtain ⟨k0, v⟩ := p
    by_cases h : k0 = k
    · subst h
      simp [aupdate, alookup]
    · simp [aupdate, alookup, h, ih]

theorem alookup_aupdate_ne {β : Type} (k k' : String) (hk : k' ≠ k) (f : Option β → β)
    (m : List (String × β)) : alookup k' (aupdate k f m) = alookup k' m := by
  induction m with
  | nil => simp [aupdate, alookup, Ne.symm hk]
  | cons p m ih =>
    obtain ⟨k0, v⟩ := p
    by_cases h : k0 = k
    · subst h
      simp [aupdate, alookup, Ne.symm hk]
    · simp [aupdate, alookup, h, ih]

theorem mem_insertUniq (a s : String) (b : List String) :
    a ∈ insertUniq s b ↔ a ∈ b ∨ a = s := by
  by_cases h : s ∈ b
  · rw [insertUniq, if_pos h]
    constructor
    · exact Or.inl
    · rintro (h2 | h2)
      · exact h2
      · exact h2 ▸ h
  · rw [insertUniq, if_neg h]
    simp [List.mem_append]

theorem insertUniq_ne_nil (s : String) (b : List String) : insertUniq s b ≠ [] := by
  by_cases h : s ∈ b
  · rw [insertUniq, if_pos h]
    intro he
    rw [he] at h
    exact List.not_mem_nil s h
  · rw [insertUniq, if_neg h]
    simp

theorem nodup_insertUniq (s : String) (b : List String) (h : b.Nodup) :
    (insertUniq s b).Nodup := by
  by_cases hs : s ∈ b
  · rw [insertUniq, if_pos hs]
    exact h
  · rw [insertUniq, if_neg hs]
    rw [List.nodup_append]
    refine ⟨h, List.nodup_singleton s, ?_⟩
    intro a ha hb
    rw [List.mem_singleton] at hb
    subst hb
    exact hs ha

theorem aupdate_forall {β : Type} (P : β → Prop) (k : String) (f : Option β → β)
    (m : List (String × β)) (hm : ∀ p ∈ m, P p.2) (h0 : P (f none))
    (hs : ∀ v, P v → P (f (some v))) : ∀ p ∈ aupdate k f m, P p.2 := by
  induction m with
  | nil =>
    intro p hp
    rcases List.mem_cons.mp hp with he | he
    · subst he; exact h0
    · exact absurd he (List.not_mem_nil p)
  | cons q m ih =>
    obtain ⟨k0, v⟩ := q
    by_cases h : k0 = k
    · subst h
      intro p hp
      rw [aupdate, if_pos rfl] at hp
      rcases List.mem_cons.mp hp with he | he
      · subst he; exact hs v (hm (k0, v) (List.mem_cons_self _ _))
      · exact hm p (List.mem_cons_of_mem _ he)
    · intro p hp
      rw [aupdate, if_neg h] at hp
      rcases List.mem_cons.mp hp with he | he
      · subst he; exact hm (k0, v) (List.mem_cons_self _ _)
      · exact ih (fun q hq => hm q (List.mem_cons_of_mem _ hq)) p he

theorem addCredit_buckets (ri : RoleIndex) (cat : CatMap) (c : Credit)
    (hw : ∀ p ∈ cat, ∀ q ∈ p.2, q.2 ≠ [] ∧ q.2.Nodup) :
    ∀ p ∈ addCredit ri cat c, ∀ q ∈ p.2, q.2 ≠ [] ∧ q.2.Nodup := by
  intro p hp
  refine aupdate_forall (fun sub => ∀ q ∈ sub, q.2 ≠ [] ∧ q.2.Nodup) _ _ cat hw ?_ ?_ p hp
  · refine aupdate_forall (fun b => b ≠ [] ∧ b.Nodup) _ _ []
      (fun q hq => absurd hq (List.not_mem_nil q)) ?_ ?_
    · exact ⟨insertUniq_ne_nil _ _, nodup_insertUniq _ _ List.nodup_nil⟩
    · intro v hv
      exact ⟨insertUniq_ne_nil _ _, nodup_insertUniq _ _ hv.2⟩
  · intro v hv
    refine aupdate_forall (fun b => b ≠ [] ∧ b.Nodup) _ _ v hv ?_ ?_
    · exact ⟨insertUniq_ne_nil _ _, nodup_insertUniq _ _ List.nodup_nil⟩
    · intro b hb
      exact ⟨insertUniq_ne_nil _ _, nodup_insertUniq _ _ hb.2⟩

theorem foldl_addCredit_buckets (ri : RoleIndex) (cs : List Credit) :
    ∀ cat : CatMap, (∀ p ∈ cat, ∀ q ∈ p.2, q.2 ≠ [] ∧ q.2.Nodup) →
      ∀ p ∈ cs.foldl (addCredit ri) cat, ∀ q ∈ p.2, q.2 ≠ [] ∧ q.2.Nodup := by
  induction cs with
  | nil =>
    intro cat hw
    simpa using hw
  | cons c cs ih =>
    intro cat hw
    rw [List.foldl_cons]
    exact ih (addCredit ri cat c) (addCredit_buckets ri cat c hw)

/-! ## Claim C7 — buckets are non-empty, deduplicated and sorted -/

/-- C7: every `(heading, subheading)` pair present in `getAllCredits`
output owns a non-empty, duplicate-free, lexicographically sorted list of
formatted credit strings. -/
theorem c7_buckets_invariant (ri : RoleIndex) (cs : List Credit) :
    ∀ h subs, (h, subs) ∈ getAllCredits ri cs → ∀ sh b, (sh, b) ∈ subs →
      b ≠ [] ∧ b.Nodup ∧ b.Sorted strLe := by
  intro h subs hmem sh b hb
  rw [getAllCredits] at hmem
  rcases List.mem_map.mp hmem with ⟨p, hp, hpe⟩
  obtain ⟨h0, subs0⟩ := p
  have hsubs : subs0.map (fun q => (q.1, sortStrings q.2)) = subs :=
    congrArg Prod.snd hpe
  rw [← hsubs] at hb
  rcases List.mem_map.mp hb with ⟨q, hq, hqe⟩
  obtain ⟨sh0, b0⟩ := q
  have hb0 : sortStrings b0 = b := congrArg Prod.snd hqe
  have hbase := foldl_addCredit_buckets ri cs []
    (fun p hp2 => absurd hp2 (List.not_mem_nil p)) (h0, subs0) hp (sh0, b0) hq
  refine ⟨?_, ?_, ?_⟩
  · intro he
    apply hbase.1
    have hl := (sortStrings_perm b0).length_eq
    rw [hb0, he] at hl
    simp only [List.length_nil] at hl
    exact List.length_eq_zero.mp hl.symm
  · rw [← hb0]
    exact (sortStrings_perm b0).symm.nodup hbase.2
  · rw [← hb0]
    exact sortStrings_sorted b0

/-- C7 witness: `c7_buckets_invariant` on a concrete single-credit run. -/
theorem c7_witness :
    (["Ann (Piano)"] : List String) ≠ [] ∧
    (["Ann (Piano)"] : List String).Nodup ∧
    (["Ann (Piano)"] : List String).Sorted strLe :=
  c7_buckets_invariant riNone [⟨"Ann", "Piano"⟩] "Other" [("General", ["Ann (Piano)"])]
    (by decide) "General" ["Ann (Piano)"] (by decide)

/-! ## Claim C10 — each credit lands in exactly one bucket -/

theorem bucketOf_eq (cat : CatMap) (h sh : String) :
    bucketOf cat h sh = (alookup sh ((alookup h cat).getD [])).getD [] := by
  cases hx : alookup h cat with
  | none => simp [bucketOf, hx, alookup]
  | some sub => simp [bucketOf, hx]

theorem bucketOf_addCredit (ri : RoleIndex) (cat : CatMap) (c : Credit) (h sh s : String) :
    s ∈ bucketOf (addCredit ri cat c) h sh ↔
      s ∈ bucketOf cat h sh ∨ (s = formatCredit c ∧ (h, sh) = creditCategory ri c) := by
  rw [bucketOf_eq, bucketOf_eq, addCredit]
  by_cases hh : (creditCategory ri c).1 = h
  · rw [hh, alookup_aupdate_self, Option.getD_some]
    by_cases hsh : (creditCategory ri c).2 = sh
    · rw [hsh, alookup_aupdate_self, Option.getD_some, mem_insertUniq]
      have hpair : (h, sh) = creditCategory ri c := by
        rw [← hh, ← hsh]
      constructor
      · rintro (hb | he)
        · exact Or.inl hb
        · exact Or.inr ⟨he, hpair⟩
      · rintro (hb | ⟨he, _⟩)
        · exact Or.inl hb
        · exact Or.inr he
    · rw [alookup_aupdate_ne _ _ (fun e => hsh e.symm)]
      constructor
      · exact Or.inl
      · rintro (hb | ⟨_, hp⟩)
        · exact hb
        · exact absurd (congrArg Prod.snd hp).symm hsh
  · rw [alookup_aupdate_ne _ _ (fun e => hh e.symm)]
    constructor
    · exact Or.inl
    · rintro (hb | ⟨_, hp⟩)
      · exact hb
      · exact absurd (congrArg Prod.fst hp).symm hh

theorem bucketOf_foldl (ri : RoleIndex) (cs : List Credit) :
    ∀ (cat : CatMap) (h sh s : String),
      s ∈ bucketOf (cs.foldl (addCredit ri) cat) h sh ↔
        s ∈ bucketOf cat h sh ∨
          ∃ c ∈ cs, s = formatCredit c ∧ (h, sh) = creditCategory ri c := by
  induction cs with
  | nil =>
    intro cat h sh s
    simp
  | cons c cs ih =>
    intro cat h sh s
    rw [List.foldl_cons, ih (addCredit ri cat c) h sh s, bucketOf_addCredit]
    constructor
    · rintro ((hb | hc) | ⟨c', hc', he⟩)
      · exact Or.inl hb
      · exact Or.inr ⟨c, List.mem_cons_self _ _, hc⟩
      · exact Or.inr ⟨c', List.mem_cons_of_mem _ hc', he⟩
    · rintro (hb | ⟨c', hc', he⟩)
      · exact Or.inl (Or.inl hb)
      · rcases List.mem_cons.mp hc' with h1 | h1
        · subst h1
          exact Or.inl (Or.inr he)
        · exact Or.inr ⟨c', h1, he⟩

theorem alookup_map_val {β γ : Type} (g : β → γ) (k : String) (m : List (String × β)) :
    alookup k (m.map (fun p => (p.1, g p.2))) = (alookup k m).map g := by
  induction m with
  | nil => rfl
  | cons p m ih =>
    obtain ⟨k0, v⟩ := p
    by_cases h : k0 = k
    · subst h
      simp [alookup]
    · simp [alookup, h, ih]

theorem bucketOf_getAllCredits (ri : RoleIndex) (cs : List Credit) (h sh : String) :
    bucketOf (getAllCredits ri cs) h sh =
      sortStrings (bucketOf (cs.foldl (addCredit ri) []) h sh) := by
  rw [getAllCredits, bucketOf_eq, bucketOf_eq, alookup_map_val]
  cases hx : alookup h (cs.foldl (addCredit ri) []) with
  | none =>
    show (alookup sh ([] : SubMap)).getD [] = sortStrings ((alookup sh ([] : SubMap)).getD [])
    rfl
  | some sub =>
    show (alookup sh (sub.map (fun q => (q.1, sortStrings q.2)))).getD [] =
      sortStrings ((alookup sh sub).getD [])
    rw [alookup_map_val]
    cases hy : alookup sh sub with
    | none => rfl
    | some b => rfl

/-- C10: each input credit's formatted string is filed under exactly the
single category `creditCategory` picks for it, and every string in any
output bucket is the formatted string of some input credit, located at
that credit's own category. -/
theorem c10_single_insertion (ri : RoleIndex) (cs : List Credit) :
    (∀ c ∈ cs, formatCredit c ∈
      bucketOf (getAllCredits ri cs) (creditCategory ri c).1 (creditCategory ri c).2) ∧
    (∀ h sh s, s ∈ bucketOf (getAllCredits ri cs) h sh →
      ∃ c ∈ cs, s = formatCredit c ∧ (h, sh) = creditCategory ri c) := by
  constructor
  · intro c hc
    rw [bucketOf_getAllCredits, mem_sortStrings, bucketOf_foldl]
    exact Or.inr ⟨c, hc, rfl, rfl⟩
  · intro h sh s hs
    rw [bucketOf_getAllCredits, mem_sortStrings, bucketOf_foldl] at hs
    rcases hs with hb | he
    · rw [bucketOf_eq] at hb
      exact absurd hb (by simp [alookup])
    · exact he

/-- C10 witness: `c10_single_insertion` applied to a concrete credit. -/
theorem c10_witness :
    formatCredit ⟨"Ann", "Piano"⟩ ∈
      bucketOf (getAllCredits riNone [⟨"Ann", "Piano"⟩]) "Other" "General" := by
  have e : creditCategory riNone ⟨"Ann", "Piano"⟩ = ("Other", "General") := by decide
  have h := (c10_single_insertion riNone [⟨"Ann", "Piano"⟩]).1 ⟨"Ann", "Piano"⟩
    (List.mem_cons_self _ _)
  rw [e] at h
  exact h

/-! ## Claim C3 — the composite role lands in one category, not two -/

/-- C3 counterexample: with the claim's own table, the single credit
`"Makaya McCraven (Drums, Producer, Mixed By)"` is filed under
`(Instruments, Percussion)` only — the `(Credits, Production)` bucket does
not receive it, because the per-part fallback breaks on the first
`Instruments` match and inserts once. -/
theorem c3_counterexample :
    formatCredit creditMakaya ∈
      bucketOf (getAllCredits riMakaya [creditMakaya]) "Instruments" "Percussion" ∧
    formatCredit creditMakaya ∉
      bucketOf (getAllCredits riMakaya [creditMakaya]) "Credits" "Production" := by
  constructor
  · decide
  · decide

/-- C3 amended: the aggregator's output for the scenario is exactly one
bucket, `(Instruments, Percussion)`, holding the formatted string; no
`(Credits, Production)` entry exists. -/
theorem c3_amended_single_category :
    getAllCredits riMakaya [creditMakaya] =
      [("Instruments", [("Percussion", ["Makaya McCraven (Drums, Producer, Mixed By)"])])] := by
  decide

/-! ## Claim C2 — all-or-nothing credit-source fallback -/

/-- C2: with a fetched master holding a main release, the aggregated
credits come from the main release's credit set alone whenever that set is
non-empty — for *any* current release, so no current-release credit can
appear — and only when that whole set is empty does the output switch to
the current release's credit set. -/
theorem c2_all_or_nothing (ri : RoleIndex) (release : ReleaseData) (m : MasterData)
    (mr : ReleaseData) (af : Option String) (hm : m.mainRelease = some mr) :
    (collectCredits mr ≠ [] →
      (formatReleaseData ri release (some m) af).musicians =
        getAllCredits ri (collectCredits mr) ∧
      ∀ release2 : ReleaseData,
        (formatReleaseData ri release2 (some m) af).musicians =
          getAllCredits ri (collectCredits mr)) ∧
    (collectCredits mr = [] →
      (formatReleaseData ri release (some m) af).musicians =
        (if collectCredits release = [] then []
         else getAllCredits ri (collectCredits release))) := by
  constructor
  · intro hne
    constructor
    · simp [formatReleaseData, Option.some_bind, hm, hne]
    · intro release2
      simp [formatReleaseData, Option.some_bind, hm, hne]
  · intro hz
    simp [formatReleaseData, Option.some_bind, hm, hz]

/-- C2 witness: the main release's single credit wins although the current
release has its own distinct credit. -/
theorem c2_witness :
    (formatReleaseData riNone relCur (some masterWithMain) none).musicians =
      getAllCredits riNone (collectCredits relMain) :=
  ((c2_all_or_nothing riNone relCur masterWithMain relMain none rfl).1 (by decide)).1

/-! ## Claim C4 — the year field does not fall back per-field -/

/-- C4 counterexample: main release present but without a year, current
release year 1975 — the output year is `None`, not 1975, so absence of the
higher-priority year does *not* fall back to the current release's. -/
theorem c4_counterexample :
    relMain.year = none ∧ relCur.year = some 1975 ∧
    masterWithMain.mainRelease = some relMain ∧
    (formatReleaseData riNone relCur (some masterWithMain) none).year ≠ relCur.year := by
  refine ⟨rfl, rfl, rfl, ?_⟩
  decide

/-- C4 amended: the output year is the main release's year (null included,
with no per-field fallback) whenever a master with a main release is
resolved; only when no main release is available at all does the year come
from the current release. -/
theorem c4_amended_no_year_fallback (ri : RoleIndex) (release : ReleaseData)
    (masterOpt : Option MasterData) (af : Option String) :
    (∀ m mr, masterOpt = some m → m.mainRelease = some mr →
      (formatReleaseData ri release masterOpt af).year = mr.year) ∧
    (masterOpt.bind MasterData.mainRelease = none →
      (formatReleaseData ri release masterOpt af).year = release.year) := by
  constructor
  · intro m mr hmo hm
    subst hmo
    simp [formatReleaseData, Option.some_bind, hm]
  · intro hnone
    simp [formatReleaseData, hnone]

/-- C4 witness: both branches of `c4_amended_no_year_fallback` at concrete
inputs. -/
theorem c4_witness :
    (formatReleaseData riNone relCur (some masterWithMain) none).year = relMain.year ∧
    (formatReleaseData riNone relCur none none).year = relCur.year := by
  constructor
  · exact (c4_amended_no_year_fallback riNone relCur (some masterWithMain) none).1
      masterWithMain relMain rfl rfl
  · exact (c4_amended_no_year_fallback riNone relCur none none).2 rfl

/-! ## Claim C5 — genre priority master → original → current -/

/-- C5: with a master and main release fetched, the reconciled genres are
the master's when non-empty, else the main/original release's when
non-empty, else the current release's — an empty list never wins by rank. -/
theorem c5_genre_priority (ri : RoleIndex) (release : ReleaseData) (m : MasterData)
    (mr : ReleaseData) (af : Option String) (hm : m.mainRelease = some mr) :
    (formatReleaseData ri release (some m) af).genres =
      (if m.genres = [] then (if mr.genres = [] then release.genres else mr.genres)
       else m.genres) := by
  by_cases h1 : m.genres = []
  · by_cases h2 : mr.genres = []
    · simp [formatReleaseData, Option.some_bind, hm, h1, h2]
    · simp [formatReleaseData, Option.some_bind, hm, h1, h2]
  · simp [formatReleaseData, Option.some_bind, hm, h1]

/-- C5 witness: `master.genres = []`, `original.genres = ["Jazz"]`,
`current.genres = ["Pop"]` reconciles to `["Jazz"]`. -/
theorem c5_witness :
    (formatReleaseData riNone relCur (some masterWithMain) none).genres = ["Jazz"] := by
  have h := c5_genre_priority riNone relCur masterWithMain relMain none rfl
  rw [h]
  decide

/-! ## Claim C6 — the current release stands in as its own original -/

/-- C6: when there is no master, or the master has no main-release
reference, the formatted output's original-prefixed fields and the year,
country and label all take the current release's values, and
`original_release_id` equals the current release's id. -/
theorem c6_current_stands_in (ri : RoleIndex) (release : ReleaseData)
    (masterOpt : Option MasterData) (af : Option String)
    (h : masterOpt.bind MasterData.mainRelease = none) :
    (formatReleaseData ri release masterOpt af).originalReleaseId = release.id ∧
    (formatReleaseData ri release masterOpt af).originalReleaseId =
      (formatReleaseData ri release masterOpt af).currentReleaseId ∧
    (formatReleaseData ri release masterOpt af).country = release.country ∧
    (formatReleaseData ri release masterOpt af).label =
      release.labels.head?.map LabelInfo.name ∧
    (formatReleaseData ri release masterOpt af).originalCatno =
      release.labels.head?.map LabelInfo.catno ∧
    (formatReleaseData ri release masterOpt af).year = release.year ∧
    (formatReleaseData ri release masterOpt af).originalIdentifiers =
      (formatReleaseData ri release masterOpt af).currentIdentifiers := by
  refine ⟨?_, ?_, ?_, ?_, ?_, ?_, ?_⟩ <;> simp [formatReleaseData, h]

/-- C6 witness: `c6_current_stands_in` with no master at all. -/
theorem c6_witness :
    (formatReleaseData riNone relCur none none).originalReleaseId = relCur.id ∧
    (formatReleaseData riNone relCur none none).originalReleaseId =
      (formatReleaseData riNone relCur none none).currentReleaseId ∧
    (formatReleaseData riNone relCur none none).country = relCur.country ∧
    (formatReleaseData riNone relCur none none).label =
      relCur.labels.head?.map LabelInfo.name ∧
    (formatReleaseData riNone relCur none none).originalCatno =
      relCur.labels.head?.map LabelInfo.catno ∧
    (formatReleaseData riNone relCur none none).year = relCur.year ∧
    (formatReleaseData riNone relCur none none).originalIdentifiers =
      (formatReleaseData riNone relCur none none).currentIdentifiers :=
  c6_current_stands_in riNone relCur none none rfl

end Vinyl
